import Mathlib

/-
Verification of the cataloging orchestration engine of the syft repository.

The Go sources embedded here:
  - internal package "packages": Catalog and packageFileOwnershipRelationships
  - cmd/power_user.go: powerUserExecWorker

External collaborators (file resolver, cpe.Generate, pkg.URL,
pkg.NewRelationships, the per-ecosystem catalogers, powerUserTasks,
source.New) are parameters of the embedding, carried in environment
records.  Go error values are modelled as String; a Go pair
(xs, err) becomes (List _, Option String); the hashicorp multierror
accumulator becomes a List String that is nil exactly when the list is
empty.
-/

namespace Syft

/-- Coordinates are an opaque reference into the content source. -/
abbrev Coordinates := Nat

/-- Location as returned by the file resolver; only its Coordinates field
is used by the embedded code (relationship endpoints). -/
structure Location where
  coordinates : Coordinates
deriving DecidableEq, Repr

/-- Package record.  Identity-defining fields are name, version, typ and
metadata; cpes and purl are the identifier fields the orchestrator
mutates; licenses and locations are the remaining non-identity payload.
The metadata field models the tagged metadata variant: some paths means
the metadata implements the pkg.FileOwner capability with OwnedFiles()
returning those paths, none means the capability type assertion fails. -/
structure Package where
  name : String
  version : String
  typ : String
  metadata : Option (List String)
  licenses : List String
  locations : List Location
  cpes : List String
  purl : String
deriving DecidableEq, Repr

/-- Identity of a package: the fields the stable identity hash covers
(name, version, ecosystem type, metadata); identifier fields, licenses
and locations are excluded. -/
def Package.identity (p : Package) : String × String × String × Option (List String) :=
  (p.name, p.version, p.typ, p.metadata)

/-- Relationship endpoint: either a package or location coordinates. -/
inductive RelNode where
  | pkg (p : Package)
  | coords (c : Coordinates)
deriving DecidableEq, Repr

/-- Relationship type tag; the embedded code only constructs contains
edges, catalogers and the synthesizer may produce others. -/
inductive RelType where
  | contains
  | other (s : String)
deriving DecidableEq, Repr

/-- Typed directed edge between packages and locations; the Go field
named Type is rendered rtype because Type is a Lean keyword. -/
structure Relationship where
  From : RelNode
  To : RelNode
  rtype : RelType
deriving DecidableEq, Repr

/-- FileResolver capability: FilesByPath returns a location list and an
error, modelled as the Go pair. -/
abbrev Resolver := String → List Location × Option String

/-- Cataloger capability: a name and a Catalog method returning
(packages, relationships, error) as the Go triple. -/
structure Cataloger where
  name : String
  run : Resolver → List Package × List Relationship × Option String

/-- Contains edge literal constructed by the ownership loop: From the
owning package, To the coordinates of the matched location. -/
def containsEdge (p : Package) (l : Location) : Relationship :=
  { From := RelNode.pkg p, To := RelNode.coords l.coordinates, rtype := RelType.contains }

/-- Loop body of packageFileOwnershipRelationships over the owned paths:
for each path query the resolver; a lookup error returns (nil, wrapped
error) immediately, discarding everything accumulated; zero locations
are silently skipped; otherwise one contains edge per location is
accumulated in order. -/
def ownedPathsLoop (p : Package) (resolver : Resolver) : List String → List Relationship × Option String
  | [] => ([], none)
  | path :: rest =>
    match resolver path with
    | (_, some e) => ([], some ("unable to find path for path=\"" ++ path ++ "\": " ++ e))
    | (locations, none) =>
      match ownedPathsLoop p resolver rest with
      | (_, some e) => ([], some e)
      | (rels, none) =>
        (locations.map (containsEdge p) ++ rels, none)

/-- Embedding of packageFileOwnershipRelationships: when the metadata
does not implement the FileOwner capability return (nil, nil), otherwise
derive contains edges for every owned path via the resolver. -/
def packageFileOwnershipRelationships (p : Package) (resolver : Resolver) :
    List Relationship × Option String :=
  match p.metadata with
  | none => ([], none)
  | some ownedFiles => ownedPathsLoop p resolver ownedFiles

/-- Environment of external collaborators consumed by the Catalog
orchestrator: the file resolver, the optional OS release context, the
pure identifier synthesizers cpe.Generate and pkg.URL, and the
relationship synthesizer pkg.NewRelationships. -/
structure Env where
  resolver : Resolver
  release : Option Nat
  cpeGenerate : Package → List String
  pkgURL : Package → Option Nat → String
  newRelationships : List Package → List Relationship

/-- Identifier synthesis applied to a package before insertion: first the
CPEs field is overwritten with cpe.Generate of the incoming package, then
the PURL field is overwritten with pkg.URL of the CPE-updated package and
the release context, exactly as the two assignments in the loop body. -/
def synthesizeIdentifiers (env : Env) (p : Package) : Package :=
  let p1 := { p with cpes := env.cpeGenerate p }
  { p1 with purl := env.pkgURL p1 env.release }

/-- Modelled from the spec: the pkg.Catalog Add operation is not under
src, only its caller is.  Per the spec the catalog is keyed by identity;
adding a package whose identity is already present merges (locations
accumulate, first-seen non-identity fields are not overwritten), adding a
fresh identity appends, preserving insertion order. -/
def catalogAdd (c : List Package) (p : Package) : List Package :=
  if c.any (fun q => q.identity = p.identity) then
    c.map fun q =>
      if q.identity = p.identity then { q with locations := q.locations ++ p.locations }
      else q
  else c ++ [p]

/-- Mutable state threaded through the cataloger loop: the catalog under
construction, the accumulated relationship list, the multierror
accumulator, the packagesDiscovered monitor counter, and an
instrumentation counter of pkg.NewRelationships invocations. -/
structure RunState where
  catalog : List Package
  allRelationships : List Relationship
  errs : List String
  packagesDiscovered : Nat
  synthCalls : Nat
deriving Repr

/-- Per-package body of the inner loop: synthesize identifiers, derive
ownership relationships (on error only a warning is logged and nothing is
appended), then add the package to the catalog. -/
def processPackage (env : Env) (st : RunState) (p0 : Package) : RunState :=
  let p := synthesizeIdentifiers env p0
  let owning := packageFileOwnershipRelationships p env.resolver
  let rels :=
    match owning.2 with
    | some _ => st.allRelationships
    | none => st.allRelationships ++ owning.1
  { st with allRelationships := rels, catalog := catalogAdd st.catalog p }

/-- Per-cataloger body of the outer loop: invoke the cataloger; on error
append the raw error to the multierror accumulator and continue; on
success advance the packagesDiscovered counter by the package count,
process every package, then append the cataloger-reported
relationships. -/
def processCataloger (env : Env) (st : RunState) (c : Cataloger) : RunState :=
  match c.run env.resolver with
  | (_, _, some e) => { st with errs := st.errs ++ [e] }
  | (packages, relationships, none) =>
    let st1 := { st with packagesDiscovered := st.packagesDiscovered + packages.length }
    let st2 := packages.foldl (processPackage env) st1
    { st2 with allRelationships := st2.allRelationships ++ relationships }

/-- Result of one orchestrator run: the returned triple plus the
observable monitor effects.  catalog and relationships are none exactly
where Go returns nil; error is none for a nil multierror and otherwise
carries the accumulated list. -/
structure CatalogResult where
  catalog : Option (List Package)
  relationships : Option (List Relationship)
  error : Option (List String)
  packagesDiscovered : Nat
  filesCompleted : Bool
  packagesCompleted : Bool
  synthCalls : Nat
deriving Repr

/-- Embedding of the Catalog orchestrator: fold the cataloger loop over
an empty state, invoke pkg.NewRelationships once over the finished
catalog and append its output, then either return (nil, nil, errs) when
the multierror is non-nil, or mark both monitor streams completed and
return the catalog, the relationships and a nil error. -/
def Catalog (env : Env) (catalogers : List Cataloger) : CatalogResult :=
  let st0 : RunState := ⟨[], [], [], 0, 0⟩
  let st1 := catalogers.foldl (processCataloger env) st0
  let st2 := { st1 with
    allRelationships := st1.allRelationships ++ env.newRelationships st1.catalog,
    synthCalls := st1.synthCalls + 1 }
  if st2.errs = [] then
    { catalog := some st2.catalog, relationships := some st2.allRelationships,
      error := none, packagesDiscovered := st2.packagesDiscovered,
      filesCompleted := true, packagesCompleted := true, synthCalls := st2.synthCalls }
  else
    { catalog := none, relationships := none,
      error := some st2.errs, packagesDiscovered := st2.packagesDiscovered,
      filesCompleted := false, packagesCompleted := false, synthCalls := st2.synthCalls }

/-- Source metadata: only the scheme field is inspected by the worker;
schemes are modelled as strings with the image scheme as a constant. -/
structure SourceMeta where
  scheme : String
deriving DecidableEq, Repr

/-- Constant source.ImageScheme consumed from the external source
package. -/
def ImageScheme : String := "image"

/-- Source handle returned by source.New; only its metadata is used. -/
structure Source where
  metadata : SourceMeta
deriving DecidableEq, Repr

/-- The JSON document configuration the tasks fill in: the source
metadata and application config captured at construction plus an opaque
accumulating payload the tasks write. -/
structure JSONDocumentConfig where
  sourceMetadata : SourceMeta
  applicationConfig : Nat
  taskData : List String
deriving DecidableEq, Repr

/-- A power-user task mutates the shared analysis results and returns an
error, modelled as a function to the updated results paired with the
error. -/
abbrev Task := JSONDocumentConfig → Source → JSONDocumentConfig × Option String

/-- Environment of the worker: the powerUserTasks constructor result, the
source.New constructor, and the application config captured into the
analysis results. -/
structure WorkerEnv where
  powerUserTasks : List Task × Option String
  sourceNew : String → Source × Option String
  appConfig : Nat

/-- Observable outcome of one worker run: every value sent on the errs
channel, in order, and the payload of the PresenterReady event when one
was published. -/
structure WorkerResult where
  errors : List String
  published : Option JSONDocumentConfig
deriving DecidableEq, Repr

/-- Task loop of the worker: run each task in order over the shared
analysis results, stopping at the first task error. -/
def runTasks (src : Source) : JSONDocumentConfig → List Task → JSONDocumentConfig × Option String
  | ar, [] => (ar, none)
  | ar, t :: ts =>
    match t ar src with
    | (ar1, some e) => (ar1, some e)
    | (ar1, none) => runTasks src ar1 ts

/-- Embedding of powerUserExecWorker: construct the tasks, construct the
source, reject non-image schemes, run every task over the analysis
results, and publish a single PresenterReady event carrying the finished
results; each failure sends exactly one error on the channel and
publishes nothing. -/
def powerUserExecWorker (env : WorkerEnv) (userInput : String) : WorkerResult :=
  match env.powerUserTasks with
  | (_, some e) => { errors := [e], published := none }
  | (tasks, none) =>
    match env.sourceNew userInput with
    | (_, some e) => { errors := [e], published := none }
    | (src, none) =>
      if src.metadata.scheme ≠ ImageScheme then
        { errors := ["the power-user subcommand only allows for image schemes, given \"" ++
            src.metadata.scheme ++ "\""], published := none }
      else
        let analysisResults : JSONDocumentConfig :=
          { sourceMetadata := src.metadata, applicationConfig := env.appConfig, taskData := [] }
        match runTasks src analysisResults tasks with
        | (_, some e) => { errors := [e], published := none }
        | (finished, none) => { errors := [], published := some finished }

/-! Spec-side accessors and derived quantities used to state the claims. -/

/-- Packages returned by one cataloger invocation. -/
def catalogerPackages (env : Env) (c : Cataloger) : List Package :=
  (c.run env.resolver).1

/-- Relationships reported by one cataloger invocation. -/
def catalogerRels (env : Env) (c : Cataloger) : List Relationship :=
  (c.run env.resolver).2.1

/-- Error returned by one cataloger invocation. -/
def catalogerErr (env : Env) (c : Cataloger) : Option String :=
  (c.run env.resolver).2.2

/-- Ownership edges that actually reach the relationship list for one
raw cataloger package: the derived contains edges when derivation
succeeds, nothing when it reports an error. -/
def ownershipOf (env : Env) (p0 : Package) : List Relationship :=
  match packageFileOwnershipRelationships (synthesizeIdentifiers env p0) env.resolver with
  | (rels, none) => rels
  | (_, some _) => []

/-- Per-cataloger contribution to the relationship list: the ownership
edges of its packages in order, then its own reported relationships. -/
def catalogerContribution (env : Env) (c : Cataloger) : List Relationship :=
  (catalogerPackages env c).flatMap (ownershipOf env) ++ catalogerRels env c

/-- All packages of a run after identifier synthesis, in processing
order. -/
def allSynthesizedPackages (env : Env) (catalogers : List Cataloger) : List Package :=
  catalogers.flatMap fun c => (catalogerPackages env c).map (synthesizeIdentifiers env)

/-- Total advance of the packagesDiscovered counter: the package count of
every successfully invoked cataloger. -/
def specDiscoveredCount (env : Env) (catalogers : List Cataloger) : Nat :=
  (catalogers.map fun c =>
    match catalogerErr env c with
    | none => (catalogerPackages env c).length
    | some _ => 0).sum

/-- Final catalog of an all-successful run: every synthesized package
added in processing order, starting from the empty catalog. -/
def finalCatalog (env : Env) (cs : List Cataloger) : List Package :=
  (allSynthesizedPackages env cs).foldl catalogAdd []

/-- Executable substring test used to state that an error message nowhere
mentions a cataloger name. -/
def hasSubstring (needle hay : String) : Bool :=
  (List.range (hay.length + 1)).any fun i =>
    (hay.data.drop i).take needle.length == needle.data

/-! Concrete fixtures used by witnesses and counterexamples. -/

/-- Fixture location. -/
def locL : Location := ⟨7⟩

/-- Fixture package owning one file. -/
def pkgA : Package :=
  { name := "pkg-a", version := "1.0", typ := "deb", metadata := some ["/usr/bin/x"],
    licenses := ["mit"], locations := [⟨3⟩], cpes := [], purl := "" }

/-- Fixture package without the file-owner capability. -/
def pkgB : Package :=
  { name := "pkg-b", version := "2.0", typ := "rpm", metadata := none,
    licenses := [], locations := [], cpes := [], purl := "" }

/-- Fixture package owning a resolvable path and then a failing path. -/
def pkgC : Package :=
  { name := "pkg-c", version := "3.0", typ := "deb", metadata := some ["/usr/bin/x", "/bad"],
    licenses := [], locations := [], cpes := [], purl := "" }

/-- Fixture resolver where every lookup succeeds and only one path has a
location. -/
def resolverOk : Resolver := fun path =>
  if path = "/usr/bin/x" then ([locL], none) else ([], none)

/-- Fixture resolver where one path resolves and another hits a lookup
error. -/
def resolverErr : Resolver := fun path =>
  if path = "/usr/bin/x" then ([locL], none)
  else if path = "/bad" then ([], some "io failure") else ([], none)

/-- Fixture environment with the clean resolver and simple synthesizer
collaborators. -/
def envOk : Env :=
  { resolver := resolverOk, release := none,
    cpeGenerate := fun p => [p.name ++ "-cpe"],
    pkgURL := fun p _ => "pkg:" ++ p.name,
    newRelationships := fun cat =>
      [{ From := RelNode.coords 0, To := RelNode.coords cat.length,
         rtype := RelType.other "synthesized" }] }

/-- Fixture environment whose resolver fails on the /bad path. -/
def envErr : Env :=
  { envOk with resolver := resolverErr }

/-- Fixture cataloger that succeeds with one package. -/
def catalogerA : Cataloger :=
  ⟨"cataloger-a", fun _ => ([pkgA], [], none)⟩

/-- Fixture cataloger that succeeds with a capability-free package. -/
def catalogerB : Cataloger :=
  ⟨"cataloger-b", fun _ => ([pkgB], [], none)⟩

/-- Fixture cataloger that returns one package together with an error. -/
def catalogerFail : Cataloger :=
  ⟨"my-cataloger", fun _ => ([pkgA], [], some "boom")⟩

/-- Fixture run state with non-trivial prior contents. -/
def stW : RunState :=
  ⟨[pkgB], [{ From := RelNode.pkg pkgB, To := RelNode.coords 1, rtype := RelType.other "dep" }],
    ["prior-error"], 3, 0⟩

/-- Fixture power-user task that appends a marker to the results. -/
def taskOk : Task := fun ar _ => ({ ar with taskData := ar.taskData ++ ["t1"] }, none)

/-- Fixture worker environment with one succeeding task and an image
source. -/
def envW : WorkerEnv :=
  { powerUserTasks := ([taskOk], none),
    sourceNew := fun _ => (⟨⟨"image"⟩⟩, none),
    appConfig := 5 }

/-! Lemmas about the ownership loop. -/

/-- When every owned path resolves without error the loop returns exactly
one contains edge per (path, location) pair, in order, and no error. -/
theorem ownedPathsLoop_ok (p : Package) (resolver : Resolver) (paths : List String)
    (h : ∀ path ∈ paths, (resolver path).2 = none) :
    ownedPathsLoop p resolver paths =
      (paths.flatMap fun path => ((resolver path).1).map (containsEdge p), none) := by
  induction paths with
  | nil => simp [ownedPathsLoop]
  | cons a rest ih =>
    have ha : (resolver a).2 = none := h a (List.mem_cons_self a rest)
    have hrest : ∀ path ∈ rest, (resolver path).2 = none :=
      fun q hq => h q (List.mem_cons_of_mem a hq)
    cases hr : resolver a with
    | mk locs err =>
      rw [hr] at ha; simp only at ha; subst ha
      simp only [ownedPathsLoop, hr, ih hrest, List.flatMap_cons]

/-- When a prefix of the owned paths resolves cleanly and the next path
hits a lookup error, the loop returns nil and the error wrapped with the
failing path, discarding everything already derived. -/
theorem ownedPathsLoop_err (p : Package) (resolver : Resolver)
    (pre : List String) (bad : String) (rest : List String) (e : String)
    (hpre : ∀ path ∈ pre, (resolver path).2 = none)
    (hbad : (resolver bad).2 = some e) :
    ownedPathsLoop p resolver (pre ++ bad :: rest) =
      ([], some ("unable to find path for path=\"" ++ bad ++ "\": " ++ e)) := by
  induction pre with
  | nil =>
    cases hr : resolver bad with
    | mk locs err =>
      rw [hr] at hbad; simp only at hbad; subst hbad
      simp only [List.nil_append, ownedPathsLoop, hr]
  | cons a pre ih =>
    have ha : (resolver a).2 = none := hpre a (List.mem_cons_self a pre)
    have hpre2 : ∀ path ∈ pre, (resolver path).2 = none :=
      fun q hq => hpre q (List.mem_cons_of_mem a hq)
    cases hr : resolver a with
    | mk locs err =>
      rw [hr] at ha; simp only at ha; subst ha
      simp only [List.cons_append, ownedPathsLoop, hr, List.append_eq, ih hpre2]

/-- The loop never returns relationships next to an error. -/
theorem ownedPathsLoop_shape (p : Package) (resolver : Resolver) (paths : List String) :
    (ownedPathsLoop p resolver paths).2 = none ∨ (ownedPathsLoop p resolver paths).1 = [] := by
  induction paths with
  | nil => left; simp [ownedPathsLoop]
  | cons a rest ih =>
    cases hr : resolver a with
    | mk locs err =>
      cases err with
      | some e => right; simp [ownedPathsLoop, hr]
      | none =>
        cases hl : ownedPathsLoop p resolver rest with
        | mk rels lerr =>
          cases lerr with
          | some e => right; simp [ownedPathsLoop, hr, hl]
          | none => left; simp [ownedPathsLoop, hr, hl]

/-- If some owned path hits a lookup error the loop reports an error. -/
theorem ownedPathsLoop_some_err (p : Package) (resolver : Resolver) (paths : List String)
    (h : ∃ path ∈ paths, ((resolver path).2).isSome) :
    ((ownedPathsLoop p resolver paths).2).isSome := by
  induction paths with
  | nil => simp at h
  | cons a rest ih =>
    cases hr : resolver a with
    | mk locs err =>
      cases err with
      | some e => simp [ownedPathsLoop, hr]
      | none =>
        have hrest : ∃ path ∈ rest, ((resolver path).2).isSome := by
          rcases h with ⟨q, hq, hqs⟩
          rcases List.mem_cons.mp hq with rfl | hq2
          · rw [hr] at hqs; simp at hqs
          · exact ⟨q, hq2, hqs⟩
        cases hl : ownedPathsLoop p resolver rest with
        | mk rels lerr =>
          have := ih hrest
          rw [hl] at this
          cases lerr with
          | some e => simp [ownedPathsLoop, hr, hl]
          | none => simp at this

/-! Lemmas about the per-package and per-cataloger loop bodies. -/

/-- Processing one package never touches the multierror accumulator. -/
theorem processPackage_errs (env : Env) (st : RunState) (p : Package) :
    (processPackage env st p).errs = st.errs := rfl

/-- Processing one package never touches the discovered counter. -/
theorem processPackage_discovered (env : Env) (st : RunState) (p : Package) :
    (processPackage env st p).packagesDiscovered = st.packagesDiscovered := rfl

/-- Processing one package never invokes the relationship synthesizer. -/
theorem processPackage_synthCalls (env : Env) (st : RunState) (p : Package) :
    (processPackage env st p).synthCalls = st.synthCalls := rfl

/-- Processing one package adds exactly its identifier-synthesized
version to the catalog. -/
theorem processPackage_catalog (env : Env) (st : RunState) (p : Package) :
    (processPackage env st p).catalog = catalogAdd st.catalog (synthesizeIdentifiers env p) := rfl

/-- Processing one package appends exactly its surviving ownership
edges to the relationship list. -/
theorem processPackage_rels (env : Env) (st : RunState) (p : Package) :
    (processPackage env st p).allRelationships = st.allRelationships ++ ownershipOf env p := by
  cases h : packageFileOwnershipRelationships (synthesizeIdentifiers env p) env.resolver with
  | mk rels err => cases err <;> simp [processPackage, ownershipOf, h]

/-- The package loop leaves the multierror accumulator unchanged. -/
theorem foldl_processPackage_errs (env : Env) (packages : List Package) (st : RunState) :
    (packages.foldl (processPackage env) st).errs = st.errs := by
  induction packages generalizing st with
  | nil => rfl
  | cons p ps ih => rw [List.foldl_cons, ih, processPackage_errs]

/-- The package loop leaves the discovered counter unchanged. -/
theorem foldl_processPackage_discovered (env : Env) (packages : List Package) (st : RunState) :
    (packages.foldl (processPackage env) st).packagesDiscovered = st.packagesDiscovered := by
  induction packages generalizing st with
  | nil => rfl
  | cons p ps ih => rw [List.foldl_cons, ih, processPackage_discovered]

/-- The package loop never invokes the relationship synthesizer. -/
theorem foldl_processPackage_synthCalls (env : Env) (packages : List Package) (st : RunState) :
    (packages.foldl (processPackage env) st).synthCalls = st.synthCalls := by
  induction packages generalizing st with
  | nil => rfl
  | cons p ps ih => rw [List.foldl_cons, ih, processPackage_synthCalls]

/-- The package loop adds exactly the synthesized packages, in order. -/
theorem foldl_processPackage_catalog (env : Env) (packages : List Package) (st : RunState) :
    (packages.foldl (processPackage env) st).catalog =
      (packages.map (synthesizeIdentifiers env)).foldl catalogAdd st.catalog := by
  induction packages generalizing st with
  | nil => rfl
  | cons p ps ih =>
    rw [List.foldl_cons, ih, List.map_cons, List.foldl_cons, processPackage_catalog]

/-- The package loop appends exactly the surviving ownership edges of all
its packages, in order. -/
theorem foldl_processPackage_rels (env : Env) (packages : List Package) (st : RunState) :
    (packages.foldl (processPackage env) st).allRelationships =
      st.allRelationships ++ packages.flatMap (ownershipOf env) := by
  induction packages generalizing st with
  | nil => simp
  | cons p ps ih =>
    rw [List.foldl_cons, ih, processPackage_rels, List.flatMap_cons, List.append_assoc]

/-- One cataloger step appends exactly its error, when it has one, to the
multierror accumulator. -/
theorem processCataloger_errs (env : Env) (st : RunState) (c : Cataloger) :
    (processCataloger env st c).errs = st.errs ++ (catalogerErr env c).toList := by
  cases h : c.run env.resolver with
  | mk pkgs rest =>
    cases rest with
    | mk rels err =>
      cases err <;> simp [processCataloger, catalogerErr, h, foldl_processPackage_errs]

/-- One cataloger step advances the discovered counter by its package
count exactly when it succeeds. -/
theorem processCataloger_discovered (env : Env) (st : RunState) (c : Cataloger) :
    (processCataloger env st c).packagesDiscovered =
      st.packagesDiscovered +
        (match catalogerErr env c with
          | none => (catalogerPackages env c).length
          | some _ => 0) := by
  cases h : c.run env.resolver with
  | mk pkgs rest =>
    cases rest with
    | mk rels err =>
      cases err <;>
        simp [processCataloger, catalogerErr, catalogerPackages, h,
          foldl_processPackage_discovered]

/-- One cataloger step never invokes the relationship synthesizer. -/
theorem processCataloger_synthCalls (env : Env) (st : RunState) (c : Cataloger) :
    (processCataloger env st c).synthCalls = st.synthCalls := by
  cases h : c.run env.resolver with
  | mk pkgs rest =>
    cases rest with
    | mk rels err =>
      cases err <;> simp [processCataloger, h, foldl_processPackage_synthCalls]

/-- A successful cataloger step in full: catalog grows by its synthesized
packages, the relationship list by its contribution, the counter by its
package count; the accumulator is untouched. -/
theorem processCataloger_ok (env : Env) (st : RunState) (c : Cataloger)
    (h : catalogerErr env c = none) :
    processCataloger env st c =
      { catalog := ((catalogerPackages env c).map (synthesizeIdentifiers env)).foldl
          catalogAdd st.catalog,
        allRelationships := st.allRelationships ++ catalogerContribution env c,
        errs := st.errs,
        packagesDiscovered := st.packagesDiscovered + (catalogerPackages env c).length,
        synthCalls := st.synthCalls } := by
  cases hr : c.run env.resolver with
  | mk pkgs rest =>
    cases rest with
    | mk rels err =>
      have : err = none := by
        have := h; rw [catalogerErr, hr] at this; exact this
      subst this
      simp only [processCataloger, hr, catalogerPackages, catalogerContribution,
        catalogerRels]
      cases hfold : pkgs.foldl (processPackage env)
          { st with packagesDiscovered := st.packagesDiscovered + pkgs.length } with
      | mk cat arels errs disc sc =>
        have hc := foldl_processPackage_catalog env pkgs
          { st with packagesDiscovered := st.packagesDiscovered + pkgs.length }
        have hrels := foldl_processPackage_rels env pkgs
          { st with packagesDiscovered := st.packagesDiscovered + pkgs.length }
        have herrs := foldl_processPackage_errs env pkgs
          { st with packagesDiscovered := st.packagesDiscovered + pkgs.length }
        have hd := foldl_processPackage_discovered env pkgs
          { st with packagesDiscovered := st.packagesDiscovered + pkgs.length }
        have hs := foldl_processPackage_synthCalls env pkgs
          { st with packagesDiscovered := st.packagesDiscovered + pkgs.length }
        rw [hfold] at hc hrels herrs hd hs
        simp only at hc hrels herrs hd hs
        simp [hr, hc, hrels, herrs, hd, hs, List.append_assoc]

/-- The cataloger loop accumulates exactly the errors of the failing
catalogers, in invocation order: later catalogers run even after a
failure. -/
theorem foldl_processCataloger_errs (env : Env) (cs : List Cataloger) (st : RunState) :
    (cs.foldl (processCataloger env) st).errs = st.errs ++ cs.filterMap (catalogerErr env) := by
  induction cs generalizing st with
  | nil => simp
  | cons c cs ih =>
    rw [List.foldl_cons, ih, processCataloger_errs, List.filterMap_cons]
    cases catalogerErr env c <;> simp

/-- The cataloger loop advances the discovered counter by the package
count of every successful cataloger, failures or not. -/
theorem foldl_processCataloger_discovered (env : Env) (cs : List Cataloger) (st : RunState) :
    (cs.foldl (processCataloger env) st).packagesDiscovered =
      st.packagesDiscovered + specDiscoveredCount env cs := by
  induction cs generalizing st with
  | nil => simp [specDiscoveredCount]
  | cons c cs ih =>
    rw [List.foldl_cons, ih, processCataloger_discovered]
    simp only [specDiscoveredCount, List.map_cons, List.sum_cons]
    cases catalogerErr env c <;> simp [Nat.add_assoc]

/-- The cataloger loop never invokes the relationship synthesizer. -/
theorem foldl_processCataloger_synthCalls (env : Env) (cs : List Cataloger) (st : RunState) :
    (cs.foldl (processCataloger env) st).synthCalls = st.synthCalls := by
  induction cs generalizing st with
  | nil => rfl
  | cons c cs ih => rw [List.foldl_cons, ih, processCataloger_synthCalls]

/-- The cataloger loop on an all-successful run, in full. -/
theorem foldl_processCataloger_ok (env : Env) (cs : List Cataloger) (st : RunState)
    (h : ∀ c ∈ cs, catalogerErr env c = none) :
    cs.foldl (processCataloger env) st =
      { catalog := (allSynthesizedPackages env cs).foldl catalogAdd st.catalog,
        allRelationships := st.allRelationships ++ cs.flatMap (catalogerContribution env),
        errs := st.errs,
        packagesDiscovered := st.packagesDiscovered + specDiscoveredCount env cs,
        synthCalls := st.synthCalls } := by
  induction cs generalizing st with
  | nil =>
    cases st with
    | mk cat arels errs disc sc => simp [allSynthesizedPackages, specDiscoveredCount]
  | cons c cs ih =>
    have hc : catalogerErr env c = none := h c (List.mem_cons_self c cs)
    have hcs : ∀ d ∈ cs, catalogerErr env d = none :=
      fun d hd => h d (List.mem_cons_of_mem c hd)
    rw [List.foldl_cons, processCataloger_ok env st c hc, ih _ hcs]
    simp only [allSynthesizedPackages, specDiscoveredCount, List.flatMap_cons, List.map_cons,
      List.sum_cons, hc, List.foldl_append, List.append_assoc]
    simp [Nat.add_assoc]

/-- The orchestrator invokes the relationship synthesizer exactly once
per run, failing or not. -/
theorem Catalog_synthCalls (env : Env) (cs : List Cataloger) :
    (Catalog env cs).synthCalls = 1 := by
  simp only [Catalog]
  split <;> simp [foldl_processCataloger_synthCalls]

/-- The error result is the accumulated failing-cataloger errors, nil
exactly when there are none. -/
theorem Catalog_error (env : Env) (cs : List Cataloger) :
    (Catalog env cs).error =
      if cs.filterMap (catalogerErr env) = [] then none
      else some (cs.filterMap (catalogerErr env)) := by
  have he : (cs.foldl (processCataloger env) ⟨[], [], [], 0, 0⟩).errs =
      cs.filterMap (catalogerErr env) := by
    rw [foldl_processCataloger_errs]; simp
  simp only [Catalog, he]
  split <;> simp [*]

/-- The discovered counter of any run is the per-success package count
total. -/
theorem Catalog_discovered (env : Env) (cs : List Cataloger) :
    (Catalog env cs).packagesDiscovered = specDiscoveredCount env cs := by
  have hd := foldl_processCataloger_discovered env cs ⟨[], [], [], 0, 0⟩
  simp only [Catalog]
  split <;> simp [hd]

/-- A run with at least one failing cataloger returns nil for the
catalog and the relationships, carries every failure in the aggregate
error, and never marks the monitor streams completed. -/
theorem Catalog_fail (env : Env) (cs : List Cataloger)
    (h : cs.filterMap (catalogerErr env) ≠ []) :
    (Catalog env cs).catalog = none ∧
    (Catalog env cs).relationships = none ∧
    (Catalog env cs).error = some (cs.filterMap (catalogerErr env)) ∧
    (Catalog env cs).filesCompleted = false ∧
    (Catalog env cs).packagesCompleted = false := by
  have he : (cs.foldl (processCataloger env) ⟨[], [], [], 0, 0⟩).errs =
      cs.filterMap (catalogerErr env) := by
    rw [foldl_processCataloger_errs]; simp
  simp only [Catalog, he]
  rw [if_neg h]
  exact ⟨rfl, rfl, rfl, rfl, rfl⟩

/-- A run with no failing cataloger in full: the final catalog, the
relationship list built from the per-cataloger contributions followed by
the synthesizer output over the final catalog, a nil error, the counter
total, and both completion marks. -/
theorem Catalog_ok (env : Env) (cs : List Cataloger)
    (h : ∀ c ∈ cs, catalogerErr env c = none) :
    Catalog env cs =
      { catalog := some (finalCatalog env cs),
        relationships := some (cs.flatMap (catalogerContribution env) ++
          env.newRelationships (finalCatalog env cs)),
        error := none,
        packagesDiscovered := specDiscoveredCount env cs,
        filesCompleted := true, packagesCompleted := true, synthCalls := 1 } := by
  have hnil : cs.filterMap (catalogerErr env) = [] := by
    simp only [List.filterMap_eq_nil_iff]
    exact h
  simp only [Catalog, foldl_processCataloger_ok env cs _ h]
  rw [if_pos (by simp [hnil])]
  simp [finalCatalog]

/-! Identity and deduplication lemmas for the catalog data structure. -/

/-- The location merge performed by catalogAdd preserves identity. -/
theorem merge_identity (q p : Package) :
    ({ q with locations := q.locations ++ p.locations } : Package).identity = q.identity := rfl

/-- Identifier synthesis preserves identity. -/
theorem synthesizeIdentifiers_identity (env : Env) (p : Package) :
    (synthesizeIdentifiers env p).identity = p.identity := rfl

/-- Adding to a catalog that already holds the identity leaves the
identity column unchanged. -/
theorem catalogAdd_map_identity_of_mem (c : List Package) (p : Package)
    (h : c.any (fun q => q.identity = p.identity) = true) :
    (catalogAdd c p).map Package.identity = c.map Package.identity := by
  simp only [catalogAdd, if_pos h, List.map_map]
  apply List.map_congr_left
  intro q _
  by_cases hq : q.identity = p.identity <;> simp [hq, merge_identity]

/-- The identities present after an add are those before plus the added
identity. -/
theorem catalogAdd_identity_mem (c : List Package) (p : Package) (i : String × String × String × Option (List String)) :
    (∃ q ∈ catalogAdd c p, q.identity = i) ↔ (∃ q ∈ c, q.identity = i) ∨ p.identity = i := by
  by_cases h : c.any (fun q => q.identity = p.identity) = true
  · have hmap := catalogAdd_map_identity_of_mem c p h
    have hmem : ∀ (l : List Package),
        (∃ q ∈ l, q.identity = i) ↔ i ∈ l.map Package.identity := by
      intro l; simp [List.mem_map, eq_comm]
    rw [hmem, hmap, ← hmem]
    constructor
    · exact Or.inl
    · rintro (hq | hp)
      · exact hq
      · rcases List.any_eq_true.mp h with ⟨q, hq, hqi⟩
        exact ⟨q, hq, by rw [of_decide_eq_true hqi, hp]⟩
  · simp only [catalogAdd, if_neg h, List.mem_append, List.mem_singleton]
    constructor
    · rintro ⟨q, hq | rfl, hi⟩
      · exact Or.inl ⟨q, hq, hi⟩
      · exact Or.inr hi
    · rintro (⟨q, hq, hi⟩ | hp)
      · exact ⟨q, Or.inl hq, hi⟩
      · exact ⟨p, Or.inr rfl, hp⟩

/-- catalogAdd preserves the no-duplicate-identities invariant. -/
theorem catalogAdd_nodup (c : List Package) (p : Package)
    (h : (c.map Package.identity).Nodup) :
    ((catalogAdd c p).map Package.identity).Nodup := by
  by_cases hm : c.any (fun q => q.identity = p.identity) = true
  · rw [catalogAdd_map_identity_of_mem c p hm]; exact h
  · simp only [catalogAdd, if_neg hm, List.map_append, List.map_cons, List.map_nil]
    rw [List.nodup_append]
    refine ⟨h, List.nodup_singleton _, ?_⟩
    intro i hi hip
    rcases List.mem_map.mp hi with ⟨q, hq, rfl⟩
    have : p.identity ≠ q.identity := by
      intro heq
      exact hm (List.any_eq_true.mpr ⟨q, hq, decide_eq_true heq.symm⟩)
    simp at hip
    exact this hip.symm

/-- Folding catalogAdd over a package list yields exactly the identities
of the start catalog and of the packages added. -/
theorem foldl_catalogAdd_identity_mem (ps : List Package) (c : List Package)
    (i : String × String × String × Option (List String)) :
    (∃ q ∈ ps.foldl catalogAdd c, q.identity = i) ↔
      (∃ q ∈ c, q.identity = i) ∨ (∃ p ∈ ps, p.identity = i) := by
  induction ps generalizing c with
  | nil => simp
  | cons p ps ih =>
    rw [List.foldl_cons, ih, catalogAdd_identity_mem]
    simp [or_assoc]

/-- Folding catalogAdd preserves the no-duplicate-identities invariant. -/
theorem foldl_catalogAdd_nodup (ps : List Package) (c : List Package)
    (h : (c.map Package.identity).Nodup) :
    (((ps.foldl catalogAdd c)).map Package.identity).Nodup := by
  induction ps generalizing c with
  | nil => exact h
  | cons p ps ih => exact ih _ (catalogAdd_nodup c p h)

/-- Both monitor completion flags are set exactly when no cataloger
failed. -/
theorem Catalog_completed (env : Env) (cs : List Cataloger) :
    ((Catalog env cs).filesCompleted = true ↔ cs.filterMap (catalogerErr env) = []) ∧
    ((Catalog env cs).packagesCompleted = true ↔ cs.filterMap (catalogerErr env) = []) := by
  have he : (cs.foldl (processCataloger env) ⟨[], [], [], 0, 0⟩).errs =
      cs.filterMap (catalogerErr env) := by
    rw [foldl_processCataloger_errs]; simp
  simp only [Catalog, he]
  split <;> simp [*]

/-! Claim theorems. -/

/-- Claim C1: a cataloger failure never aborts the loop — the aggregated
error carries the error of every failing cataloger over the whole list,
in order — and any failure makes the result the triple (nil catalog, nil
relationships, aggregated error); with no failing cataloger the error
result is nil. -/
theorem claim_C1_all_or_nothing (env : Env) (cs : List Cataloger) :
    ((∃ c ∈ cs, ((catalogerErr env c)).isSome) →
      (Catalog env cs).catalog = none ∧
      (Catalog env cs).relationships = none ∧
      (Catalog env cs).error = some (cs.filterMap (catalogerErr env))) ∧
    ((∀ c ∈ cs, catalogerErr env c = none) → (Catalog env cs).error = none) := by
  constructor
  · rintro ⟨c, hc, hs⟩
    have hne : cs.filterMap (catalogerErr env) ≠ [] := by
      intro h0
      have := List.filterMap_eq_nil_iff.mp h0 c hc
      rw [this] at hs
      simp at hs
    obtain ⟨h1, h2, h3, _, _⟩ := Catalog_fail env cs hne
    exact ⟨h1, h2, h3⟩
  · intro h
    rw [Catalog_error, if_pos (List.filterMap_eq_nil_iff.mpr h)]

/-- Witness for claim C1 at a concrete failing run. -/
theorem claim_C1_witness :
    (Catalog envOk [catalogerFail]).catalog = none ∧
    (Catalog envOk [catalogerFail]).relationships = none ∧
    (Catalog envOk [catalogerFail]).error = some ["boom"] :=
  (claim_C1_all_or_nothing envOk [catalogerFail]).1
    ⟨catalogerFail, List.mem_singleton.mpr rfl, rfl⟩

/-- Claim C3: a package without the file-owner capability yields an empty
result and no error; a package whose owned paths all resolve without
lookup error yields exactly one contains edge per (path, location) pair
in declaration order — paths resolving to zero locations contribute
nothing — and no error. -/
theorem claim_C3_ownership_derivation (p : Package) (resolver : Resolver) :
    (p.metadata = none → packageFileOwnershipRelationships p resolver = ([], none)) ∧
    (∀ paths, p.metadata = some paths →
      (∀ path ∈ paths, (resolver path).2 = none) →
      packageFileOwnershipRelationships p resolver =
        (paths.flatMap fun path => ((resolver path).1).map (containsEdge p), none)) := by
  constructor
  · intro h
    simp [packageFileOwnershipRelationships, h]
  · intro paths hm hok
    simp [packageFileOwnershipRelationships, hm, ownedPathsLoop_ok p resolver paths hok]

/-- Witness for claim C3: the capability-free package gives nothing, and
the owning package gives exactly one contains edge for its one resolved
path while unresolved paths give nothing. -/
theorem claim_C3_witness :
    packageFileOwnershipRelationships pkgB resolverOk = ([], none) ∧
    packageFileOwnershipRelationships pkgA resolverOk = ([containsEdge pkgA locL], none) := by
  refine ⟨(claim_C3_ownership_derivation pkgB resolverOk).1 rfl, ?_⟩
  have h := (claim_C3_ownership_derivation pkgA resolverOk).2 ["/usr/bin/x"] rfl
    (by decide)
  exact h

/-- Claim C9: identifier synthesis between cataloger output and catalog
insertion rewrites only the cpes and purl fields; name, version, type,
metadata, licenses and locations are untouched, and the catalog receives
exactly the synthesized package. -/
theorem claim_C9_frame (env : Env) (st : RunState) (p : Package) :
    (synthesizeIdentifiers env p).name = p.name ∧
    (synthesizeIdentifiers env p).version = p.version ∧
    (synthesizeIdentifiers env p).typ = p.typ ∧
    (synthesizeIdentifiers env p).metadata = p.metadata ∧
    (synthesizeIdentifiers env p).licenses = p.licenses ∧
    (synthesizeIdentifiers env p).locations = p.locations ∧
    (processPackage env st p).catalog = catalogAdd st.catalog (synthesizeIdentifiers env p) :=
  ⟨rfl, rfl, rfl, rfl, rfl, rfl, rfl⟩

/-- Claim C10: one failing lookup makes the ownership derivation return
the nil relationship list together with an error — edges already derived
for earlier paths of the same package are discarded. -/
theorem claim_C10_all_or_none (p : Package) (resolver : Resolver) (paths : List String)
    (hm : p.metadata = some paths)
    (h : ∃ path ∈ paths, ((resolver path).2).isSome) :
    (packageFileOwnershipRelationships p resolver).1 = [] ∧
    ((packageFileOwnershipRelationships p resolver).2).isSome := by
  have hs := ownedPathsLoop_some_err p resolver paths h
  have hshape := ownedPathsLoop_shape p resolver paths
  simp only [packageFileOwnershipRelationships, hm]
  refine ⟨?_, hs⟩
  rcases hshape with h0 | h0
  · rw [h0] at hs
    simp at hs
  · exact h0

/-- Witness for claim C10: the first owned path resolves to a location,
the second hits a lookup error, and the result still carries no edge. -/
theorem claim_C10_witness :
    (packageFileOwnershipRelationships pkgC resolverErr).1 = [] ∧
    ((packageFileOwnershipRelationships pkgC resolverErr).2).isSome :=
  claim_C10_all_or_none pkgC resolverErr ["/usr/bin/x", "/bad"] rfl
    ⟨"/bad", by decide, by decide⟩

/-- Claim C2: with no failing cataloger the returned catalog is exactly
the identity-deduplicated union of all cataloger packages — an identity
is present iff some cataloger returned it, and no identity appears twice
— and the returned relationship list is exactly the per-cataloger
ownership edges and reported relationships, in order, followed by the
synthesizer output over the finished catalog. -/
theorem claim_C2_success_output (env : Env) (cs : List Cataloger)
    (h : ∀ c ∈ cs, catalogerErr env c = none) :
    (Catalog env cs).catalog = some (finalCatalog env cs) ∧
    (∀ i, (∃ q ∈ finalCatalog env cs, q.identity = i) ↔
      ∃ p ∈ cs.flatMap (catalogerPackages env), p.identity = i) ∧
    ((finalCatalog env cs).map Package.identity).Nodup ∧
    (Catalog env cs).relationships =
      some (cs.flatMap (catalogerContribution env) ++
        env.newRelationships (finalCatalog env cs)) := by
  have hok := Catalog_ok env cs h
  refine ⟨by rw [hok], ?_, ?_, by rw [hok]⟩
  · intro i
    rw [finalCatalog, foldl_catalogAdd_identity_mem]
    simp only [List.not_mem_nil, false_and, exists_false, false_or]
    unfold allSynthesizedPackages
    constructor
    · rintro ⟨p, hp, hi⟩
      rcases List.mem_flatMap.mp hp with ⟨c, hc, hpc⟩
      rcases List.mem_map.mp hpc with ⟨p0, hp0, rfl⟩
      exact ⟨p0, List.mem_flatMap.mpr ⟨c, hc, hp0⟩,
        by rw [← synthesizeIdentifiers_identity env p0]; exact hi⟩
    · rintro ⟨p0, hp0, hi⟩
      rcases List.mem_flatMap.mp hp0 with ⟨c, hc, hpc⟩
      exact ⟨synthesizeIdentifiers env p0,
        List.mem_flatMap.mpr ⟨c, hc, List.mem_map_of_mem _ hpc⟩,
        by rw [synthesizeIdentifiers_identity]; exact hi⟩
  · exact foldl_catalogAdd_nodup _ _ (by simp)

/-- Witness for claim C2 at a concrete two-cataloger run. -/
theorem claim_C2_witness :
    (Catalog envOk [catalogerA, catalogerB]).catalog =
      some (finalCatalog envOk [catalogerA, catalogerB]) ∧
    ((finalCatalog envOk [catalogerA, catalogerB]).map Package.identity).Nodup ∧
    (Catalog envOk [catalogerA, catalogerB]).relationships =
      some ([catalogerA, catalogerB].flatMap (catalogerContribution envOk) ++
        envOk.newRelationships (finalCatalog envOk [catalogerA, catalogerB])) := by
  have h := claim_C2_success_output envOk [catalogerA, catalogerB]
    (by
      intro c hc
      rcases List.mem_cons.mp hc with rfl | hc2
      · rfl
      · rw [List.mem_singleton] at hc2
        rw [hc2]
        rfl)
  exact ⟨h.1, h.2.2.1, h.2.2.2⟩

/-- Claim C4: a lookup error while deriving ownership yields the error
wrapped with the failing path and abandons the derivation for that package
only: processing the package appends no edge, leaves the multierror
accumulator untouched, still inserts the package into the catalog, and
the run-level error of any run is determined by the cataloger errors
alone. -/
theorem claim_C4_ownership_error_degrades (env : Env) (st : RunState) (p0 : Package)
    (paths pre rest : List String) (bad e : String)
    (hm : (synthesizeIdentifiers env p0).metadata = some paths)
    (hsplit : paths = pre ++ bad :: rest)
    (hpre : ∀ path ∈ pre, (env.resolver path).2 = none)
    (hbad : (env.resolver bad).2 = some e) :
    packageFileOwnershipRelationships (synthesizeIdentifiers env p0) env.resolver =
      ([], some ("unable to find path for path=\"" ++ bad ++ "\": " ++ e)) ∧
    (processPackage env st p0).errs = st.errs ∧
    (processPackage env st p0).allRelationships = st.allRelationships ∧
    (processPackage env st p0).catalog = catalogAdd st.catalog (synthesizeIdentifiers env p0) ∧
    (∀ cs, (Catalog env cs).error =
      if cs.filterMap (catalogerErr env) = [] then none
      else some (cs.filterMap (catalogerErr env))) := by
  have hrel : packageFileOwnershipRelationships (synthesizeIdentifiers env p0) env.resolver =
      ([], some ("unable to find path for path=\"" ++ bad ++ "\": " ++ e)) := by
    rw [packageFileOwnershipRelationships]
    rw [hm, hsplit]
    exact ownedPathsLoop_err _ env.resolver pre bad rest e hpre hbad
  refine ⟨hrel, processPackage_errs env st p0, ?_, processPackage_catalog env st p0,
    fun cs => Catalog_error env cs⟩
  rw [processPackage_rels, ownershipOf, hrel]
  simp

/-- Witness for claim C4 at a concrete package whose second owned path
fails to resolve, processed over a non-trivial prior state. -/
theorem claim_C4_witness :
    packageFileOwnershipRelationships (synthesizeIdentifiers envErr pkgC) envErr.resolver =
      ([], some "unable to find path for path=\"/bad\": io failure") ∧
    (processPackage envErr stW pkgC).errs = stW.errs ∧
    (processPackage envErr stW pkgC).allRelationships = stW.allRelationships := by
  have h := claim_C4_ownership_error_degrades envErr stW pkgC
    ["/usr/bin/x", "/bad"] ["/usr/bin/x"] [] "/bad" "io failure"
    rfl rfl (by decide) (by decide)
  exact ⟨h.1, h.2.1, h.2.2.1⟩

/-- Counterexample to claim C5: the failing cataloger is named
my-cataloger and fails with the raw error boom; the aggregated run error
carries exactly the raw string boom, which nowhere mentions the
cataloger name — no name wrapping happens before aggregation. -/
theorem claim_C5_counterexample :
    catalogerFail.name = "my-cataloger" ∧
    (catalogerFail.run envOk.resolver).2.2 = some "boom" ∧
    (Catalog envOk [catalogerFail]).error = some ["boom"] ∧
    hasSubstring "my-cataloger" "boom" = false := by
  refine ⟨rfl, rfl, ?_, by decide⟩
  rw [Catalog_error]
  decide

/-- Claim C5 (amended): the error of each failing cataloger is appended to the
multi-error aggregate unchanged — not wrapped with the cataloger name —
in invocation order, and the run error is exactly that aggregate, nil
when no cataloger failed. -/
theorem claim_C5_amended (env : Env) (cs : List Cataloger) :
    (Catalog env cs).error =
      if cs.filterMap (catalogerErr env) = [] then none
      else some (cs.filterMap (catalogerErr env)) :=
  Catalog_error env cs

/-- Counterexample to claim C6: on a run with a failing cataloger the
relationship synthesizer is still invoked exactly once, not zero times
as invoked-only-on-success would require. -/
theorem claim_C6_counterexample :
    ((Catalog envOk [catalogerFail]).error).isSome = true ∧
    (Catalog envOk [catalogerFail]).synthCalls = 1 := by
  refine ⟨?_, Catalog_synthCalls envOk [catalogerFail]⟩
  rw [Catalog_error]
  decide

/-- Claim C6 (amended): the relationship synthesizer is invoked exactly
once in every run, after all catalogers have been attempted, over the
finished catalog; on a fully successful run its output forms the tail of
the returned relationship list, and on a failing run the output is
computed but discarded with the rest of the relationships. -/
theorem claim_C6_amended (env : Env) (cs : List Cataloger) :
    (Catalog env cs).synthCalls = 1 ∧
    ((∀ c ∈ cs, catalogerErr env c = none) →
      (Catalog env cs).relationships =
        some (cs.flatMap (catalogerContribution env) ++
          env.newRelationships (finalCatalog env cs))) ∧
    ((∃ c ∈ cs, ((catalogerErr env c)).isSome) →
      (Catalog env cs).relationships = none) := by
  refine ⟨Catalog_synthCalls env cs, ?_, ?_⟩
  · intro h
    rw [Catalog_ok env cs h]
  · rintro ⟨c, hc, hs⟩
    have hne : cs.filterMap (catalogerErr env) ≠ [] := by
      intro h0
      have := List.filterMap_eq_nil_iff.mp h0 c hc
      rw [this] at hs
      simp at hs
    exact (Catalog_fail env cs hne).2.1

/-- Witness for the amended claim C6 at a concrete successful run. -/
theorem claim_C6_witness :
    (Catalog envOk [catalogerA]).synthCalls = 1 ∧
    (Catalog envOk [catalogerA]).relationships =
      some ([catalogerA].flatMap (catalogerContribution envOk) ++
        envOk.newRelationships (finalCatalog envOk [catalogerA])) := by
  have h := claim_C6_amended envOk [catalogerA]
  refine ⟨h.1, h.2.1 ?_⟩
  intro c hc
  rw [List.mem_singleton] at hc
  rw [hc]
  rfl

/-- Counterexample to claim C7: a failing cataloger that returns one
package does not advance the discovered-package counter — the loop skips
the counter update on error, so the counter stays at zero instead of
reflecting the package count of the failing cataloger. -/
theorem claim_C7_counterexample :
    ((catalogerFail.run envOk.resolver).1).length = 1 ∧
    ((catalogerFail.run envOk.resolver).2.2).isSome = true ∧
    (Catalog envOk [catalogerFail]).packagesDiscovered = 0 := by
  refine ⟨rfl, rfl, ?_⟩
  rw [Catalog_discovered]
  decide

/-- Claim C7 (amended): the discovered-package counter is advanced by the
package count of every successfully invoked cataloger — those counts
survive a later run-level failure — but not by counts returned by
failing catalogers; both monitor streams are marked completed exactly
when no cataloger failed. -/
theorem claim_C7_amended (env : Env) (cs : List Cataloger) :
    (Catalog env cs).packagesDiscovered = specDiscoveredCount env cs ∧
    ((Catalog env cs).filesCompleted = true ↔ ∀ c ∈ cs, catalogerErr env c = none) ∧
    ((Catalog env cs).packagesCompleted = true ↔ ∀ c ∈ cs, catalogerErr env c = none) := by
  have hc := Catalog_completed env cs
  refine ⟨Catalog_discovered env cs, ?_, ?_⟩
  · rw [hc.1, List.filterMap_eq_nil_iff]
  · rw [hc.2, List.filterMap_eq_nil_iff]

/-- Witness for the amended claim C7: a successful cataloger followed by
a failing one — the success is counted, and the streams are not marked
completed. -/
theorem claim_C7_witness :
    (Catalog envOk [catalogerA, catalogerFail]).packagesDiscovered =
      specDiscoveredCount envOk [catalogerA, catalogerFail] ∧
    (Catalog envOk [catalogerA, catalogerFail]).filesCompleted = false := by
  have h := claim_C7_amended envOk [catalogerA, catalogerFail]
  refine ⟨h.1, ?_⟩
  have hne : ¬ ∀ c ∈ [catalogerA, catalogerFail], catalogerErr envOk c = none := by
    intro hall
    exact absurd
      (hall catalogerFail (List.mem_cons_of_mem _ (List.mem_singleton.mpr rfl)))
      (by decide)
  rcases Bool.eq_false_or_eq_true (Catalog envOk [catalogerA, catalogerFail]).filesCompleted
    with hb | hb
  · exact absurd (h.2.1.mp hb) hne
  · exact hb

/-- Claim C8: the worker publishes at most one presenter-ready event; it
publishes exactly when the task constructor, the source constructor, the
scheme check and every task succeed, the published artifact is the
analysis results finished by the full task list, and every failure path
instead sends exactly one error on the channel and publishes nothing. -/
theorem claim_C8_single_publish (env : WorkerEnv) (userInput : String) :
    ((powerUserExecWorker env userInput).published = none →
      ∃ e, (powerUserExecWorker env userInput).errors = [e]) ∧
    (∀ a, (powerUserExecWorker env userInput).published = some a →
      (powerUserExecWorker env userInput).errors = [] ∧
      env.powerUserTasks.2 = none ∧
      (env.sourceNew userInput).2 = none ∧
      ((env.sourceNew userInput).1).metadata.scheme = ImageScheme ∧
      (runTasks (env.sourceNew userInput).1
        { sourceMetadata := ((env.sourceNew userInput).1).metadata,
          applicationConfig := env.appConfig, taskData := [] }
        env.powerUserTasks.1).2 = none ∧
      a = (runTasks (env.sourceNew userInput).1
        { sourceMetadata := ((env.sourceNew userInput).1).metadata,
          applicationConfig := env.appConfig, taskData := [] }
        env.powerUserTasks.1).1) := by
  cases hT : env.powerUserTasks with
  | mk tasks terr =>
    cases terr with
    | some e =>
      have hw : powerUserExecWorker env userInput = ⟨[e], none⟩ := by
        simp [powerUserExecWorker, hT]
      rw [hw]
      exact ⟨fun _ => ⟨e, rfl⟩, fun a ha => by simp at ha⟩
    | none =>
      cases hS : env.sourceNew userInput with
      | mk src serr =>
        cases serr with
        | some e =>
          have hw : powerUserExecWorker env userInput = ⟨[e], none⟩ := by
            simp [powerUserExecWorker, hT, hS]
          rw [hw]
          exact ⟨fun _ => ⟨e, rfl⟩, fun a ha => by simp at ha⟩
        | none =>
          by_cases hSch : src.metadata.scheme = ImageScheme
          · cases hR : runTasks src
                { sourceMetadata := src.metadata,
                  applicationConfig := env.appConfig, taskData := [] } tasks with
            | mk finished rerr =>
              cases rerr with
              | some e =>
                have hw : powerUserExecWorker env userInput = ⟨[e], none⟩ := by
                  simp [powerUserExecWorker, hT, hS, hSch, hR]
                rw [hw]
                exact ⟨fun _ => ⟨e, rfl⟩, fun a ha => by simp at ha⟩
              | none =>
                have hw : powerUserExecWorker env userInput = ⟨[], some finished⟩ := by
                  simp [powerUserExecWorker, hT, hS, hSch, hR]
                rw [hw]
                constructor
                · intro hnone
                  simp at hnone
                · intro a ha
                  simp only [Option.some.injEq] at ha
                  subst ha
                  exact ⟨rfl, rfl, rfl, hSch, by simp [hR], by simp [hR]⟩
          · have hw : powerUserExecWorker env userInput =
                ⟨["the power-user subcommand only allows for image schemes, given \"" ++
                  src.metadata.scheme ++ "\""], none⟩ := by
              simp [powerUserExecWorker, hT, hS, hSch]
            rw [hw]
            exact ⟨fun _ => ⟨_, rfl⟩, fun a ha => by simp at ha⟩

/-- Witness for claim C8 at a concrete succeeding worker run. -/
theorem claim_C8_witness :
    (powerUserExecWorker envW "img").errors = [] ∧
    (powerUserExecWorker envW "img").published =
      some { sourceMetadata := ⟨"image"⟩, applicationConfig := 5, taskData := ["t1"] } := by
  have h := (claim_C8_single_publish envW "img").2
    { sourceMetadata := ⟨"image"⟩, applicationConfig := 5, taskData := ["t1"] } (by decide)
  exact ⟨h.1, by decide⟩

end Syft
